import Mathlib

/-!
Verification of the lexer + recursive-descent parser of `src/parser.rs`
(rusqlite). The lexer is embedded at character level: its state (input,
position, read_position, ch) is equivalent to the list of characters from
the current char onward, since the cursor only moves forward. The parser
interacts with the lexer solely through `next_token` pulls and never
advances past a `None` lookahead, so it is embedded as a function on the
token list the lexer produces up to its first `None`.

Machine numerics: `i64::from_str` is modelled over the digit runs the lexer
feeds it (no sign, no empty run) with the `i64::MAX` overflow bound made
explicit; `f64::from_str` is modelled over digit/dot runs, returning the
exact decimal value as a rational (IEEE rounding is not modelled; the
properties proved here depend only on parse success/failure and the
literal fallback values).

Character classes: Rust's `char::is_whitespace`, `is_alphabetic`,
`is_alphanumeric` and `str::to_uppercase`/`to_lowercase` are modelled by
Lean's `Char.isWhitespace`, `Char.isAlpha`, `Char.isAlphanum`,
`Char.toUpper`/`Char.toLower`, which agree with them on ASCII (the keyword
set, all punctuation and every character the claims mention are ASCII);
the exotic Unicode cases, where Rust is broader, are outside the scope of
the claims.
-/

deriving instance DecidableEq for Except

namespace Rusqlite

/-- The `Token` enum of `src/parser.rs`. String payloads are `List Char`. -/
inductive Token where
  | Keyword (s : List Char)
  | Identifier (s : List Char)
  | StringLiteral (s : List Char)
  | Integer (i : Int)
  | Float (q : Rat)
  | Boolean (b : Bool)
  | Null
  | Date (s : List Char)
  | Time (s : List Char)
  | Timestamp (s : List Char)
  | Interval (s : List Char)
  | LeftParen
  | RightParen
  | Comma
  | SemiColon
  | Whitespace (s : List Char)
deriving DecidableEq

/-- The `Value` enum of `src/ast.rs` as used by the parser. -/
inductive Value where
  | Integer (i : Int)
  | Float (q : Rat)
  | Text (s : List Char)
  | Boolean (b : Bool)
  | Null
  | Date (s : List Char)
  | Time (s : List Char)
  | Timestamp (s : List Char)
  | Interval (s : List Char)
deriving DecidableEq

/-- The `Insert` AST node: table name, column names, values. -/
structure Insert where
  table : List Char
  columns : List (List Char)
  values : List Value
deriving DecidableEq

/-- The `Query` enum (only the `Insert` variant exists). -/
inductive Query where
  | Insert (ins : Insert)
deriving DecidableEq

/-- `Lexer::is_identifier_start`: alphabetic or underscore. -/
def is_identifier_start (c : Char) : Bool :=
  c.isAlpha || c == '_'

/-- `Lexer::is_identifier_part`: alphanumeric or underscore. -/
def is_identifier_part (c : Char) : Bool :=
  c.isAlphanum || c == '_'

/-- `str::to_uppercase`, characterwise (ASCII; the keyword set is ASCII). -/
def upperChars (w : List Char) : List Char :=
  w.map Char.toUpper

/-- `str::eq_ignore_ascii_case`. -/
def eqIgnoreAsciiCase (a b : List Char) : Bool :=
  a.map Char.toLower == b.map Char.toLower

/-- `Lexer::is_keyword`: uppercased word is in the fixed keyword set. -/
def is_keyword (w : List Char) : Bool :=
  let u := upperChars w
  u == "INSERT".toList || u == "INTO".toList || u == "VALUES".toList ||
  u == "DATE".toList || u == "TIME".toList || u == "TIMESTAMP".toList ||
  u == "INTERVAL".toList || u == "NULL".toList || u == "TRUE".toList ||
  u == "FALSE".toList

/-- Value of a run of ASCII digits, most significant first. -/
def digitsVal (w : List Char) : Nat :=
  w.foldl (fun a c => a * 10 + (c.toNat - '0'.toNat)) 0

/-- `i64::MAX`. -/
def i64Max : Nat := 2 ^ 63 - 1

/-- `i64::from_str` on the runs `read_number` produces (unsigned digit runs):
succeeds exactly on nonempty all-digit runs whose value fits in `i64`. -/
def parse_i64 (w : List Char) : Option Int :=
  if w ≠ [] ∧ w.all Char.isDigit ∧ digitsVal w ≤ i64Max then
    some ((digitsVal w : Nat) : Int)
  else none

/-- Exact value of the decimal `ip.fp`. -/
def decimalVal (ip fp : List Char) : Rat :=
  (digitsVal ip : Rat) + (digitsVal fp : Rat) / (10 : Rat) ^ fp.length

/-- `f64::from_str` on the digit/dot runs `read_number` produces: succeeds
exactly when the run has at least one digit and at most one dot; the value is
the exact decimal (rounding to the nearest double is not modelled). -/
def parse_f64 (w : List Char) : Option Rat :=
  if w.any Char.isDigit ∧ w.count '.' ≤ 1 then
    some (decimalVal (w.takeWhile (· ≠ '.')) ((w.dropWhile (· ≠ '.')).drop 1))
  else none

/-- `Lexer::skip_whitespace`: drop leading whitespace characters. -/
def skip_whitespace (s : List Char) : List Char :=
  s.dropWhile Char.isWhitespace

/-- `Lexer::read_string_literal`, applied to the input just after the opening
quote: the literal is everything up to the next quote; the closing quote is
consumed when present (`drop 1` is a no-op at end of input, as `read_char`
is at the end sentinel). -/
def read_string_literal (s : List Char) : List Char × List Char :=
  (s.takeWhile (· ≠ '\''), (s.dropWhile (· ≠ '\'')).drop 1)

/-- The token `read_number` builds from the scanned run: float when the run
contains a dot, integer otherwise; `0` fallback when parsing fails. -/
def numToken (number : List Char) : Token :=
  if number.contains '.' then
    match parse_f64 number with
    | some f => Token.Float f
    | none => Token.Float 0
  else
    match parse_i64 number with
    | some i => Token.Integer i
    | none => Token.Integer 0

/-- `Lexer::read_number`: maximal run of ASCII digits and dots. -/
def read_number (s : List Char) : Token × List Char :=
  (numToken (s.takeWhile fun c => c.isDigit || c == '.'),
   s.dropWhile fun c => c.isDigit || c == '.')

/-- The token `read_identifier_or_keyword` builds from the scanned word.
In the source every keyword arm except NULL/TRUE/FALSE yields
`Token::Keyword(ident.to_uppercase())`, as does the wildcard arm. -/
def identToken (ident : List Char) : Token :=
  if is_keyword ident then
    if upperChars ident == "NULL".toList then Token.Null
    else if upperChars ident == "TRUE".toList then Token.Boolean true
    else if upperChars ident == "FALSE".toList then Token.Boolean false
    else Token.Keyword (upperChars ident)
  else Token.Identifier ident

/-- `Lexer::read_identifier_or_keyword`: maximal identifier-part run. -/
def read_identifier_or_keyword (s : List Char) : Token × List Char :=
  (identToken (s.takeWhile is_identifier_part), s.dropWhile is_identifier_part)

/-- The dispatch on the current character in `Lexer::next_token`, applied
after `skip_whitespace`. -/
def scan_token : List Char → Option Token × List Char
  | [] => (none, [])
  | c :: rest =>
    if c == '(' then (some Token.LeftParen, rest)
    else if c == ')' then (some Token.RightParen, rest)
    else if c == ',' then (some Token.Comma, rest)
    else if c == ';' then (some Token.SemiColon, rest)
    else if c == '\'' then
      let p := read_string_literal rest
      (some (Token.StringLiteral p.1), p.2)
    else if c.isDigit then
      let p := read_number (c :: rest)
      (some p.1, p.2)
    else if is_identifier_start c then
      let p := read_identifier_or_keyword (c :: rest)
      (some p.1, p.2)
    else (none, rest)

/-- `Lexer::next_token`: one lexing step on the remaining input. Returns the
token (or `none`: end of input, or an unrecognized character, which is
consumed) and the remaining input. -/
def next_token (s : List Char) : Option Token × List Char :=
  scan_token (skip_whitespace s)

/-- Iterated `next_token`, fueled (each produced token consumes at least one
character, so `length + 1` fuel is enough; see `lexTokensF_eq_of_lt`). -/
def lexTokensF : Nat → List Char → List Token
  | 0, _ => []
  | Nat.succ fuel, s =>
    match next_token s with
    | (some t, r) => t :: lexTokensF fuel r
    | (none, _) => []

/-- The token stream of an input: all tokens up to the first `none` from
`next_token`. The source parser never advances past a `None` lookahead, so
this is exactly the part of the stream it can observe. -/
def lexTokens (s : List Char) : List Token :=
  lexTokensF (s.length + 1) s

/-- `Parser::match_token`: consume the lookahead when it equals `t`.
`some rest` models `true` plus the advanced stream, `none` models `false`. -/
def match_token (t : Token) : List Token → Option (List Token)
  | c :: rest => if c = t then some rest else none
  | [] => none

/-- `Parser::match_keyword`: consume a keyword token, ASCII-case-insensitively. -/
def match_keyword (k : List Char) : List Token → Option (List Token)
  | Token.Keyword kw :: rest => if eqIgnoreAsciiCase kw k then some rest else none
  | _ => none

/-- The column-list loop of `parse_insert`: an identifier, then a comma
continues the loop and anything else ends it. -/
def parse_columns : List Token → Except String (List (List Char) × List Token)
  | Token.Identifier col :: rest =>
    match rest with
    | Token.Comma :: rest2 =>
      match parse_columns rest2 with
      | Except.ok (cols, r) => Except.ok (col :: cols, r)
      | Except.error e => Except.error e
    | _ => Except.ok ([col], rest)
  | _ => Except.error "Expected column name."

/-- The value-list loop of `parse_insert`. `phase = true` is the top of the
loop body (`consume_whitespace_and_comments`, then the value match);
`phase = false` is after a value (`consume_whitespace_and_comments`, then
the comma check: comma continues, anything else breaks). -/
def parse_values_loop : Bool → List Value → List Token → Except String (List Value × List Token)
  | true, acc, Token.Whitespace _ :: rest => parse_values_loop true acc rest
  | true, acc, Token.Integer i :: rest => parse_values_loop false (Value.Integer i :: acc) rest
  | true, acc, Token.Float f :: rest => parse_values_loop false (Value.Float f :: acc) rest
  | true, acc, Token.StringLiteral s :: rest => parse_values_loop false (Value.Text s :: acc) rest
  | true, acc, Token.Null :: rest => parse_values_loop false (Value.Null :: acc) rest
  | true, acc, Token.Boolean b :: rest => parse_values_loop false (Value.Boolean b :: acc) rest
  | true, acc, Token.Keyword kw :: rest =>
    if eqIgnoreAsciiCase kw ("DATE".toList) then
      match rest with
      | Token.StringLiteral s :: rest2 => parse_values_loop false (Value.Date s :: acc) rest2
      | _ => Except.error "Failed to parse 'DATE' literal."
    else if eqIgnoreAsciiCase kw ("TIME".toList) then
      match rest with
      | Token.StringLiteral s :: rest2 => parse_values_loop false (Value.Time s :: acc) rest2
      | _ => Except.error "Failed to parse 'TIME' literal."
    else if eqIgnoreAsciiCase kw ("TIMESTAMP".toList) then
      match rest with
      | Token.StringLiteral s :: rest2 => parse_values_loop false (Value.Timestamp s :: acc) rest2
      | _ => Except.error "Failed to parse 'TIMESTAMP' literal."
    else if eqIgnoreAsciiCase kw ("INTERVAL".toList) then
      match rest with
      | Token.StringLiteral s :: rest2 => parse_values_loop false (Value.Interval s :: acc) rest2
      | _ => Except.error "Failed to parse 'INTERVAL' literal."
    else Except.error "Failed to parse value."
  | true, _, _ => Except.error "Failed to parse value."
  | false, acc, Token.Whitespace _ :: rest => parse_values_loop false acc rest
  | false, acc, Token.Comma :: rest => parse_values_loop true acc rest
  | false, acc, rest => Except.ok (acc.reverse, rest)

/-- `Parser::parse_insert` on the token stream; also returns the tokens left
unconsumed when it succeeds. -/
def parse_insert (toks : List Token) : Except String (Query × List Token) :=
  match match_keyword ("INSERT".toList) toks with
  | none => Except.error "Expected 'INSERT' keyword."
  | some t1 =>
    match match_keyword ("INTO".toList) t1 with
    | none => Except.error "Expected 'INTO' keyword."
    | some t2 =>
      match t2 with
      | Token.Identifier name :: t3 =>
        (match match_token Token.LeftParen t3 with
        | none => Except.error "Expected '('."
        | some t4 =>
          match parse_columns t4 with
          | Except.error e => Except.error e
          | Except.ok (columns, t5) =>
            match match_token Token.RightParen t5 with
            | none => Except.error "Expected ')'."
            | some t6 =>
              match match_keyword ("VALUES".toList) t6 with
              | none => Except.error "Expected 'VALUES' keyword."
              | some t7 =>
                match match_token Token.LeftParen t7 with
                | none => Except.error "Expected '('."
                | some t8 =>
                  match parse_values_loop true [] t8 with
                  | Except.error e => Except.error e
                  | Except.ok (values, t9) =>
                    match match_token Token.RightParen t9 with
                    | none => Except.error "Expected ')'."
                    | some t10 =>
                      let t11 := match match_token Token.SemiColon t10 with
                        | some r => r
                        | none => t10
                      Except.ok (Query.Insert ⟨name, columns, values⟩, t11))
      | _ => Except.error "Expected table name."

/-- `Parser::parse`: dispatch on the first token; only an INSERT keyword
(case-insensitively) is delegated to `parse_insert`. -/
def parse (toks : List Token) : Except String (Query × List Token) :=
  match toks with
  | Token.Keyword kw :: _ =>
    if eqIgnoreAsciiCase kw ("INSERT".toList) then parse_insert toks
    else Except.error "Unsupported query type."
  | _ => Except.error "Unsupported query type."

/-- `Parser::consume_whitespace_and_comments` on a token stream: drop leading
whitespace tokens (comment handling is declared but not implemented). -/
def consume_whitespace_and_comments (toks : List Token) : List Token :=
  toks.dropWhile fun t => match t with | Token.Whitespace _ => true | _ => false

/-- `Parser::new(input)` followed by `parse()`, keeping the unconsumed
remainder of the token stream. -/
def parseInputRest (input : List Char) : Except String (Query × List Token) :=
  parse (lexTokens input)

/-- `Parser::new(input)` followed by `parse()`: the `Result<Query, String>`
the caller sees. -/
def parseInput (input : List Char) : Except String Query :=
  match parseInputRest input with
  | Except.ok (q, _) => Except.ok q
  | Except.error e => Except.error e

/-! ### Well-formed INSERT statements, as input text

A `StmtSpec` describes one statement of the form
`INSERT INTO t (c1,...,cn) VALUES (v1,...,vn)` with an optional trailing
`;`, keeping the concrete spelling chosen for each keyword so that
case-insensitivity can be stated. `renderStmt` prints it back to input
text; `stmtOk` says the table name and column names are identifier words,
the literals are well formed, and each keyword spelling is a letter word
with the right uppercasing. -/

/-- Whether a word starts with an identifier-start character. -/
def headIsIdentStart : List Char → Bool
  | [] => false
  | c :: _ => is_identifier_start c

/-- A valid spelling `sp` of the keyword `canon`: letters only, uppercasing
to `canon`. -/
abbrev kwOk (sp canon : List Char) : Prop :=
  (∀ c ∈ sp, c.isAlpha = true) ∧ upperChars sp = canon

/-- A word the lexer turns into `Token.Identifier`: identifier-shaped and
not a keyword. -/
abbrev identOk (w : List Char) : Prop :=
  headIsIdentStart w = true ∧ (∀ c ∈ w, is_identifier_part c = true) ∧
    is_keyword w = false

/-- One literal of the value list, as written in the source text. -/
inductive LitSpec where
  | int (ds : List Char)
  | flt (ip fp : List Char)
  | txt (s : List Char)
  | boolLit (b : Bool) (sp : List Char)
  | nullLit (sp : List Char)
  | dateLit (sp s : List Char)
  | timeLit (sp s : List Char)
  | timestampLit (sp s : List Char)
  | intervalLit (sp s : List Char)
deriving DecidableEq

/-- Well-formedness of one literal. -/
abbrev litOk : LitSpec → Prop
  | .int ds => ds ≠ [] ∧ (∀ c ∈ ds, c.isDigit = true) ∧ digitsVal ds ≤ i64Max
  | .flt ip fp => ip ≠ [] ∧ (∀ c ∈ ip, c.isDigit = true) ∧ (∀ c ∈ fp, c.isDigit = true)
  | .txt s => '\'' ∉ s
  | .boolLit b sp => kwOk sp (if b then "TRUE".toList else "FALSE".toList)
  | .nullLit sp => kwOk sp ("NULL".toList)
  | .dateLit sp s => kwOk sp ("DATE".toList) ∧ '\'' ∉ s
  | .timeLit sp s => kwOk sp ("TIME".toList) ∧ '\'' ∉ s
  | .timestampLit sp s => kwOk sp ("TIMESTAMP".toList) ∧ '\'' ∉ s
  | .intervalLit sp s => kwOk sp ("INTERVAL".toList) ∧ '\'' ∉ s

/-- The source text of one literal. -/
def renderLit : LitSpec → List Char
  | .int ds => ds
  | .flt ip fp => ip ++ '.' :: fp
  | .txt s => '\'' :: (s ++ ['\''])
  | .boolLit _ sp => sp
  | .nullLit sp => sp
  | .dateLit sp s => sp ++ ' ' :: '\'' :: (s ++ ['\''])
  | .timeLit sp s => sp ++ ' ' :: '\'' :: (s ++ ['\''])
  | .timestampLit sp s => sp ++ ' ' :: '\'' :: (s ++ ['\''])
  | .intervalLit sp s => sp ++ ' ' :: '\'' :: (s ++ ['\''])

/-- The tokens the lexer produces for one literal. -/
def litTokens : LitSpec → List Token
  | .int ds => [Token.Integer (digitsVal ds)]
  | .flt ip fp => [Token.Float (decimalVal ip fp)]
  | .txt s => [Token.StringLiteral s]
  | .boolLit b _ => [Token.Boolean b]
  | .nullLit _ => [Token.Null]
  | .dateLit _ s => [Token.Keyword ("DATE".toList), Token.StringLiteral s]
  | .timeLit _ s => [Token.Keyword ("TIME".toList), Token.StringLiteral s]
  | .timestampLit _ s => [Token.Keyword ("TIMESTAMP".toList), Token.StringLiteral s]
  | .intervalLit _ s => [Token.Keyword ("INTERVAL".toList), Token.StringLiteral s]

/-- The `Value` the parser decodes one literal to. -/
def decodeLit : LitSpec → Value
  | .int ds => Value.Integer (digitsVal ds)
  | .flt ip fp => Value.Float (decimalVal ip fp)
  | .txt s => Value.Text s
  | .boolLit b _ => Value.Boolean b
  | .nullLit _ => Value.Null
  | .dateLit _ s => Value.Date s
  | .timeLit _ s => Value.Time s
  | .timestampLit _ s => Value.Timestamp s
  | .intervalLit _ s => Value.Interval s

/-- Comma-separated column names. -/
def renderCols : List (List Char) → List Char
  | [] => []
  | [c] => c
  | c :: c2 :: cs => c ++ ',' :: renderCols (c2 :: cs)

/-- Comma-separated literals. -/
def renderLits : List LitSpec → List Char
  | [] => []
  | [l] => renderLit l
  | l :: l2 :: ls => renderLit l ++ ',' :: renderLits (l2 :: ls)

/-- The tokens of a comma-separated column list. -/
def colTokens : List (List Char) → List Token
  | [] => []
  | [c] => [Token.Identifier c]
  | c :: c2 :: cs => Token.Identifier c :: Token.Comma :: colTokens (c2 :: cs)

/-- The tokens of a comma-separated literal list. -/
def litsTokens : List LitSpec → List Token
  | [] => []
  | [l] => litTokens l
  | l :: l2 :: ls => litTokens l ++ Token.Comma :: litsTokens (l2 :: ls)

/-- One INSERT statement, with the spelling used for each keyword. -/
structure StmtSpec where
  insSp : List Char
  intoSp : List Char
  valuesSp : List Char
  table : List Char
  cols : List (List Char)
  lits : List LitSpec
  semi : Bool

instance : DecidablePred litOk := fun l => by
  cases l <;> (unfold litOk; infer_instance)

/-- Well-formedness of a statement description. -/
abbrev stmtOk (st : StmtSpec) : Prop :=
  kwOk st.insSp ("INSERT".toList) ∧ kwOk st.intoSp ("INTO".toList) ∧
  kwOk st.valuesSp ("VALUES".toList) ∧ identOk st.table ∧
  st.cols ≠ [] ∧ (∀ c ∈ st.cols, identOk c) ∧
  st.lits ≠ [] ∧ (∀ l ∈ st.lits, litOk l)

/-- The statement's source text:
`INSERT INTO t (c1,...,cn) VALUES (v1,...,vn)` and the optional `;`. -/
def renderStmt (st : StmtSpec) : List Char :=
  st.insSp ++ ' ' :: (st.intoSp ++ ' ' :: (st.table ++ ' ' :: '(' ::
    (renderCols st.cols ++ ')' :: ' ' :: (st.valuesSp ++ ' ' :: '(' ::
      (renderLits st.lits ++ ')' :: (if st.semi then [';'] else []))))))

/-- The `Insert` node a well-formed statement parses to. -/
def stmtInsert (st : StmtSpec) : Insert :=
  ⟨st.table, st.cols, st.lits.map decodeLit⟩

/-! ### Character-class facts -/

lemma isWhitespace_cases {c : Char} (h : c.isWhitespace = true) :
    c = ' ' ∨ c = '\t' ∨ c = '\r' ∨ c = '\n' := by
  simpa only [Char.isWhitespace, Bool.or_eq_true, decide_eq_true_eq, or_assoc] using h

lemma ne_of_classes {c x : Char} (p : Char → Bool) (h : p c = true) (hx : p x = false) :
    (c == x) = false := by
  rw [beq_eq_false_iff_ne]
  rintro rfl
  rw [h] at hx
  cases hx

lemma not_ws_of_class {c : Char} (p : Char → Bool) (h : p c = true)
    (hp : p ' ' = false ∧ p '\t' = false ∧ p '\r' = false ∧ p '\n' = false) :
    c.isWhitespace = false := by
  cases hw : c.isWhitespace
  · rfl
  · exfalso
    rcases isWhitespace_cases hw with rfl | rfl | rfl | rfl
    · rw [hp.1] at h; cases h
    · rw [hp.2.1] at h; cases h
    · rw [hp.2.2.1] at h; cases h
    · rw [hp.2.2.2] at h; cases h

lemma isAlpha_not_digit {c : Char} (h : c.isAlpha = true) : c.isDigit = false := by
  cases hd : c.isDigit
  · rfl
  · exfalso
    simp only [Char.isAlpha, Char.isUpper, Char.isLower, Bool.or_eq_true, Bool.and_eq_true,
      decide_eq_true_eq] at h
    simp only [Char.isDigit, Bool.and_eq_true, decide_eq_true_eq] at hd
    rcases h with ⟨h1, _⟩ | ⟨h1, _⟩
    · exact absurd (UInt32.le_trans h1 hd.2) (by decide)
    · exact absurd (UInt32.le_trans h1 hd.2) (by decide)

lemma identStart_isPart {c : Char} (h : is_identifier_start c = true) :
    is_identifier_part c = true := by
  simp only [is_identifier_start, Bool.or_eq_true] at h
  rcases h with h | h
  · simp [is_identifier_part, Char.isAlphanum, h]
  · simp [is_identifier_part, h]

lemma identStart_not_ws {c : Char} (h : is_identifier_start c = true) :
    c.isWhitespace = false :=
  not_ws_of_class is_identifier_start h (by decide)

lemma digit_not_ws {c : Char} (h : c.isDigit = true) : c.isWhitespace = false :=
  not_ws_of_class Char.isDigit h (by decide)

lemma identStart_not_digit {c : Char} (h : is_identifier_start c = true) :
    c.isDigit = false := by
  simp only [is_identifier_start, Bool.or_eq_true] at h
  rcases h with h | h
  · exact isAlpha_not_digit h
  · rw [eq_of_beq h]
    decide

/-! ### takeWhile/dropWhile span facts -/

lemma takeWhile_middle {p : Char → Bool} {w : List Char} {d : Char} {t : List Char}
    (hw : ∀ c ∈ w, p c = true) (hd : p d = false) :
    (w ++ d :: t).takeWhile p = w ∧ (w ++ d :: t).dropWhile p = d :: t := by
  constructor
  · rw [List.takeWhile_append_of_pos hw, List.takeWhile_cons_of_neg (by simp [hd]),
      List.append_nil]
  · rw [List.dropWhile_append_of_pos hw, List.dropWhile_cons_of_neg (by simp [hd])]

lemma dropWhile_eq_self_of_none {α : Type} {p : α → Bool} {l : List α}
    (h : ∀ x ∈ l, p x = false) : l.dropWhile p = l := by
  cases l with
  | nil => rfl
  | cons a l => exact List.dropWhile_cons_of_neg (by simp [h a (by simp)])

lemma length_dropWhile_le {α : Type} (p : α → Bool) (l : List α) :
    (l.dropWhile p).length ≤ l.length := by
  induction l with
  | nil => exact Nat.le_refl 0
  | cons a l ih =>
    rw [List.dropWhile_cons]
    split
    · exact Nat.le_trans ih (Nat.le_succ _)
    · exact Nat.le_refl _

/-! ### identToken facts -/

lemma identToken_not_keyword {w : List Char} (h : is_keyword w = false) :
    identToken w = Token.Identifier w := by
  simp [identToken, h]

lemma identToken_upper_kw {sp canon : List Char} (hu : upperChars sp = canon)
    (h : canon = "INSERT".toList ∨ canon = "INTO".toList ∨ canon = "VALUES".toList ∨
         canon = "DATE".toList ∨ canon = "TIME".toList ∨ canon = "TIMESTAMP".toList ∨
         canon = "INTERVAL".toList) :
    identToken sp = Token.Keyword canon := by
  rcases h with rfl | rfl | rfl | rfl | rfl | rfl | rfl <;>
    simp [identToken, is_keyword, hu]

lemma identToken_upper_null {sp : List Char} (hu : upperChars sp = "NULL".toList) :
    identToken sp = Token.Null := by
  simp [identToken, is_keyword, hu]

lemma identToken_upper_true {sp : List Char} (hu : upperChars sp = "TRUE".toList) :
    identToken sp = Token.Boolean true := by
  simp [identToken, is_keyword, hu]

lemma identToken_upper_false {sp : List Char} (hu : upperChars sp = "FALSE".toList) :
    identToken sp = Token.Boolean false := by
  simp [identToken, is_keyword, hu]

/-! ### next_token step lemmas -/

lemma skip_whitespace_not_ws {c : Char} {s : List Char} (h : c.isWhitespace = false) :
    skip_whitespace (c :: s) = c :: s :=
  List.dropWhile_cons_of_neg (by simp [h])

lemma next_token_ws (s : List Char) : next_token (' ' :: s) = next_token s := rfl

lemma next_token_left_paren (rest : List Char) :
    next_token ('(' :: rest) = (some Token.LeftParen, rest) := rfl

lemma next_token_right_paren (rest : List Char) :
    next_token (')' :: rest) = (some Token.RightParen, rest) := rfl

lemma next_token_comma (rest : List Char) :
    next_token (',' :: rest) = (some Token.Comma, rest) := rfl

lemma next_token_semicolon (rest : List Char) :
    next_token (';' :: rest) = (some Token.SemiColon, rest) := rfl

lemma next_token_word {c : Char} {cs : List Char} {d : Char} {rest : List Char}
    (hc : is_identifier_start c = true) (hcs : ∀ x ∈ cs, is_identifier_part x = true)
    (hd : is_identifier_part d = false) :
    next_token (c :: cs ++ d :: rest) = (some (identToken (c :: cs)), d :: rest) := by
  have hware : ∀ x ∈ c :: cs, is_identifier_part x = true := by
    intro x hx
    rcases List.mem_cons.mp hx with rfl | hx
    · exact identStart_isPart hc
    · exact hcs x hx
  have ht : (c :: (cs ++ d :: rest)).takeWhile is_identifier_part = c :: cs := by
    simpa using (takeWhile_middle (t := rest) hware hd).1
  have hdr : (c :: (cs ++ d :: rest)).dropWhile is_identifier_part = d :: rest := by
    simpa using (takeWhile_middle (t := rest) hware hd).2
  have e1 : (c == '(') = false := ne_of_classes _ hc (by decide)
  have e2 : (c == ')') = false := ne_of_classes _ hc (by decide)
  have e3 : (c == ',') = false := ne_of_classes _ hc (by decide)
  have e4 : (c == ';') = false := ne_of_classes _ hc (by decide)
  have e5 : (c == '\'') = false := ne_of_classes _ hc (by decide)
  have e6 : c.isDigit = false := identStart_not_digit hc
  have h1 : skip_whitespace (c :: (cs ++ d :: rest)) = c :: (cs ++ d :: rest) :=
    skip_whitespace_not_ws (identStart_not_ws hc)
  simp only [next_token, scan_token, List.cons_append, h1, e1, e2, e3, e4, e5, e6, hc,
    Bool.false_eq_true, if_false, if_true, read_identifier_or_keyword, ht, hdr]

lemma next_token_number {c : Char} {cs : List Char} {d : Char} {rest : List Char}
    (hc : c.isDigit = true) (hcs : ∀ x ∈ cs, (x.isDigit || x == '.') = true)
    (hd : (d.isDigit || d == '.') = false) :
    next_token (c :: cs ++ d :: rest) = (some (numToken (c :: cs)), d :: rest) := by
  have hware : ∀ x ∈ c :: cs, (x.isDigit || x == '.') = true := by
    intro x hx
    rcases List.mem_cons.mp hx with rfl | hx
    · simp [hc]
    · exact hcs x hx
  have ht : (c :: (cs ++ d :: rest)).takeWhile (fun x => x.isDigit || x == '.') = c :: cs := by
    simpa using (takeWhile_middle (t := rest) hware hd).1
  have hdr : (c :: (cs ++ d :: rest)).dropWhile (fun x => x.isDigit || x == '.') = d :: rest := by
    simpa using (takeWhile_middle (t := rest) hware hd).2
  have e1 : (c == '(') = false := ne_of_classes _ hc (by decide)
  have e2 : (c == ')') = false := ne_of_classes _ hc (by decide)
  have e3 : (c == ',') = false := ne_of_classes _ hc (by decide)
  have e4 : (c == ';') = false := ne_of_classes _ hc (by decide)
  have e5 : (c == '\'') = false := ne_of_classes _ hc (by decide)
  have h1 : skip_whitespace (c :: (cs ++ d :: rest)) = c :: (cs ++ d :: rest) :=
    skip_whitespace_not_ws (digit_not_ws hc)
  simp only [next_token, scan_token, List.cons_append, h1, e1, e2, e3, e4, e5, hc,
    Bool.false_eq_true, if_false, if_true, read_number, ht, hdr]

lemma next_token_quote (t : List Char) :
    next_token ('\'' :: t) =
      (some (Token.StringLiteral (read_string_literal t).1), (read_string_literal t).2) := rfl

lemma read_string_literal_closed {s rest : List Char} (hs : '\'' ∉ s) :
    read_string_literal (s ++ '\'' :: rest) = (s, rest) := by
  have hw : ∀ x ∈ s, (decide (x ≠ '\'')) = true := by
    intro x hx
    simp only [decide_eq_true_eq, ne_eq]
    rintro rfl
    exact hs hx
  have hspan := takeWhile_middle (p := fun x => decide (x ≠ '\'')) (d := '\'') (t := rest)
    hw (by simp)
  rw [read_string_literal, hspan.1, hspan.2]
  rfl

lemma read_string_literal_unterminated {s : List Char} (hs : '\'' ∉ s) :
    read_string_literal s = (s, []) := by
  have ht : s.takeWhile (fun x => decide (x ≠ '\'')) = s := by
    rw [List.takeWhile_eq_self_iff]
    intro x hx
    simp only [decide_eq_true_eq, ne_eq]
    rintro rfl
    exact hs hx
  have hdr : s.dropWhile (fun x => decide (x ≠ '\'')) = [] := by
    rw [List.dropWhile_eq_nil_iff]
    intro x hx
    simp only [decide_eq_true_eq, ne_eq]
    rintro rfl
    exact hs hx
  rw [read_string_literal, ht, hdr]
  rfl

lemma next_token_string {s rest : List Char} (hs : '\'' ∉ s) :
    next_token ('\'' :: (s ++ '\'' :: rest)) = (some (Token.StringLiteral s), rest) := by
  rw [next_token_quote, read_string_literal_closed hs]

lemma next_token_unterminated {s : List Char} (hs : '\'' ∉ s) :
    next_token ('\'' :: s) = (some (Token.StringLiteral s), []) := by
  rw [next_token_quote, read_string_literal_unterminated hs]

/-! ### Fuel adequacy for the token stream -/

lemma next_token_some_lt {s : List Char} {t : Token} {r : List Char}
    (h : next_token s = (some t, r)) : r.length < s.length := by
  have hle : (skip_whitespace s).length ≤ s.length := length_dropWhile_le _ _
  unfold next_token at h
  rcases hsw : skip_whitespace s with _ | ⟨c, rest⟩
  · rw [hsw] at h
    cases h
  · rw [hsw] at h
    rw [hsw] at hle
    simp only [List.length_cons] at hle
    simp only [scan_token] at h
    split_ifs at h with h1 h2 h3 h4 h5 h6 h7
    · simp only [Prod.mk.injEq] at h
      rw [← h.2]
      omega
    · simp only [Prod.mk.injEq] at h
      rw [← h.2]
      omega
    · simp only [Prod.mk.injEq] at h
      rw [← h.2]
      omega
    · simp only [Prod.mk.injEq] at h
      rw [← h.2]
      omega
    · simp only [Prod.mk.injEq, read_string_literal] at h
      have hd : ((rest.dropWhile fun x => decide (x ≠ '\'')).drop 1).length ≤ rest.length := by
        have := length_dropWhile_le (fun x => decide (x ≠ '\'')) rest
        simp only [List.length_drop]
        omega
      rw [← h.2]
      omega
    · simp only [Prod.mk.injEq, read_number] at h
      have hd : ((c :: rest).dropWhile fun x => x.isDigit || x == '.').length ≤ rest.length := by
        rw [List.dropWhile_cons_of_pos (by simp [h6])]
        exact length_dropWhile_le _ _
      rw [← h.2]
      omega
    · simp only [Prod.mk.injEq, read_identifier_or_keyword] at h
      have hd : ((c :: rest).dropWhile is_identifier_part).length ≤ rest.length := by
        rw [List.dropWhile_cons_of_pos (by simp [identStart_isPart h7])]
        exact length_dropWhile_le _ _
      rw [← h.2]
      omega
    · cases h

lemma lexTokensF_eq_of_lt :
    ∀ (f1 : Nat), ∀ (s : List Char) (f2 : Nat),
      s.length < f1 → s.length < f2 → lexTokensF f1 s = lexTokensF f2 s := by
  intro f1
  induction f1 with
  | zero => exact fun s f2 h1 _ => absurd h1 (Nat.not_lt_zero _)
  | succ n ih =>
    intro s f2 h1 h2
    cases f2 with
    | zero => exact absurd h2 (Nat.not_lt_zero _)
    | succ m =>
      simp only [lexTokensF]
      rcases hnt : next_token s with ⟨ot, r⟩
      cases ot with
      | none => rfl
      | some t =>
        have hr : r.length < s.length := next_token_some_lt hnt
        show t :: lexTokensF n r = t :: lexTokensF m r
        rw [ih r m (by omega) (by omega)]

lemma lexTokens_cons {s : List Char} {t : Token} {r : List Char}
    (h : next_token s = (some t, r)) : lexTokens s = t :: lexTokens r := by
  have hr : r.length < s.length := next_token_some_lt h
  unfold lexTokens
  simp only [lexTokensF]
  rw [h]
  show t :: lexTokensF s.length r = t :: lexTokensF (r.length + 1) r
  rw [lexTokensF_eq_of_lt s.length r (r.length + 1) hr (Nat.lt_succ_self _)]

lemma lexTokens_none {s : List Char} (h : (next_token s).1 = none) : lexTokens s = [] := by
  unfold lexTokens
  simp only [lexTokensF]
  rcases hnt : next_token s with ⟨ot, r⟩
  rw [hnt] at h
  simp only at h
  subst h
  rfl

lemma lexTokens_ws (s : List Char) : lexTokens (' ' :: s) = lexTokens s := by
  unfold lexTokens
  simp only [List.length_cons, lexTokensF]
  rw [next_token_ws]
  rcases hnt : next_token s with ⟨ot, r⟩
  cases ot with
  | none => rfl
  | some t =>
    have hr : r.length < s.length := next_token_some_lt hnt
    show t :: lexTokensF (s.length + 1) r = t :: lexTokensF s.length r
    rw [lexTokensF_eq_of_lt (s.length + 1) r s.length (by omega) hr]

/-! ### Lexing rendered statements -/

lemma contains_false_of_not_mem {w : List Char} {a : Char} (h : a ∉ w) :
    w.contains a = false := by
  simp [List.contains, List.elem_eq_mem, h]

lemma lexTokens_ident_word {w : List Char} {d : Char} {rest : List Char}
    (h : identOk w) (hd : is_identifier_part d = false) :
    lexTokens (w ++ d :: rest) = Token.Identifier w :: lexTokens (d :: rest) := by
  obtain ⟨hh, hparts, hkw⟩ := h
  cases w with
  | nil => cases hh
  | cons c cs =>
    rw [lexTokens_cons (next_token_word hh
      (fun x hx => hparts x (List.mem_cons_of_mem _ hx)) hd)]
    rw [identToken_not_keyword hkw]

lemma kwOk_word {sp canon : List Char} (h : kwOk sp canon) (hcanon : canon ≠ []) :
    ∃ c cs, sp = c :: cs ∧ is_identifier_start c = true ∧
      ∀ x ∈ cs, is_identifier_part x = true := by
  obtain ⟨ha, hu⟩ := h
  cases sp with
  | nil => exact absurd (by simpa [upperChars] using hu.symm) hcanon
  | cons c cs =>
    refine ⟨c, cs, rfl, ?_, ?_⟩
    · simp [is_identifier_start, ha c (by simp)]
    · intro x hx
      simp [is_identifier_part, Char.isAlphanum, ha x (by simp [hx])]

lemma lexTokens_kw_word {sp canon : List Char} {d : Char} {rest : List Char}
    (h : kwOk sp canon) (hcanon : canon ≠ [])
    (hd : is_identifier_part d = false) :
    lexTokens (sp ++ d :: rest) = identToken sp :: lexTokens (d :: rest) := by
  obtain ⟨c, cs, rfl, hc, hcs⟩ := kwOk_word h hcanon
  exact lexTokens_cons (next_token_word hc hcs hd)

lemma parse_i64_digits {ds : List Char} (h1 : ds ≠ []) (h2 : ∀ c ∈ ds, c.isDigit = true)
    (h3 : digitsVal ds ≤ i64Max) : parse_i64 ds = some ((digitsVal ds : Int)) := by
  rw [parse_i64, if_pos ⟨h1, by simpa [List.all_eq_true] using h2, h3⟩]

lemma numToken_int {ds : List Char} (h1 : ds ≠ []) (h2 : ∀ c ∈ ds, c.isDigit = true)
    (h3 : digitsVal ds ≤ i64Max) : numToken ds = Token.Integer (digitsVal ds) := by
  have hnd : '.' ∉ ds := fun hmem => by
    have := h2 '.' hmem
    exact absurd this (by decide)
  rw [numToken, contains_false_of_not_mem hnd]
  simp only [Bool.false_eq_true, if_false, parse_i64_digits h1 h2 h3]

lemma parse_f64_run {ip fp : List Char} (hip : ip ≠ []) (hipd : ∀ c ∈ ip, c.isDigit = true)
    (hfpd : ∀ c ∈ fp, c.isDigit = true) :
    parse_f64 (ip ++ '.' :: fp) = some (decimalVal ip fp) := by
  have hnip : '.' ∉ ip := fun hmem => absurd (hipd '.' hmem) (by decide)
  have hnfp : '.' ∉ fp := fun hmem => absurd (hfpd '.' hmem) (by decide)
  have hany : (ip ++ '.' :: fp).any Char.isDigit = true := by
    rcases List.exists_mem_of_ne_nil ip hip with ⟨c, hc⟩
    exact List.any_eq_true.mpr ⟨c, List.mem_append_left _ hc, hipd c hc⟩
  have hcnt : (ip ++ '.' :: fp).count '.' ≤ 1 := by
    rw [List.count_append, List.count_cons_self,
      List.count_eq_zero.mpr hnip, List.count_eq_zero.mpr hnfp]
  have hw : ∀ x ∈ ip, (decide (x ≠ '.')) = true := by
    intro x hx
    simp only [decide_eq_true_eq, ne_eq]
    rintro rfl
    exact hnip hx
  have hspan := takeWhile_middle (p := fun x => decide (x ≠ '.')) (d := '.') (t := fp)
    hw (by simp)
  rw [parse_f64, if_pos ⟨hany, hcnt⟩, hspan.1, hspan.2]
  rfl

lemma numToken_float {ip fp : List Char} (hip : ip ≠ []) (hipd : ∀ c ∈ ip, c.isDigit = true)
    (hfpd : ∀ c ∈ fp, c.isDigit = true) :
    numToken (ip ++ '.' :: fp) = Token.Float (decimalVal ip fp) := by
  have hc : (ip ++ '.' :: fp).contains '.' = true := by
    simp [List.contains, List.elem_eq_mem]
  rw [numToken, hc]
  simp only [if_true, parse_f64_run hip hipd hfpd]

lemma lexTokens_renderLit {l : LitSpec} {d : Char} {rest : List Char} (h : litOk l)
    (hd1 : is_identifier_part d = false) (hd2 : (d.isDigit || d == '.') = false) :
    lexTokens (renderLit l ++ d :: rest) = litTokens l ++ lexTokens (d :: rest) := by
  cases l with
  | int ds =>
    obtain ⟨h1, h2, h3⟩ := h
    cases ds with
    | nil => exact absurd rfl h1
    | cons c cs =>
      rw [renderLit, litTokens]
      rw [lexTokens_cons (next_token_number (h2 c (by simp))
        (fun x hx => by simp [h2 x (List.mem_cons_of_mem _ hx)]) hd2)]
      rw [numToken_int h1 h2 h3]
      rfl
  | flt ip fp =>
    obtain ⟨h1, h2, h3⟩ := h
    cases ip with
    | nil => exact absurd rfl h1
    | cons c cs =>
      rw [renderLit, litTokens]
      have hshape : ((c :: cs) ++ '.' :: fp) ++ d :: rest =
          c :: (cs ++ '.' :: fp) ++ d :: rest := by
        simp
      rw [hshape]
      have hcs : ∀ x ∈ cs ++ '.' :: fp, (x.isDigit || x == '.') = true := by
        intro x hx
        rcases List.mem_append.mp hx with hx | hx
        · simp [h2 x (List.mem_cons_of_mem _ hx)]
        · rcases List.mem_cons.mp hx with rfl | hx
          · simp
          · simp [h3 x hx]
      rw [lexTokens_cons (next_token_number (h2 c (by simp)) hcs hd2)]
      have : c :: (cs ++ '.' :: fp) = (c :: cs) ++ '.' :: fp := by simp
      rw [this, numToken_float h1 h2 h3]
      rfl
  | txt s =>
    rw [renderLit, litTokens]
    have hshape : ('\'' :: (s ++ ['\''])) ++ d :: rest =
        '\'' :: (s ++ '\'' :: (d :: rest)) := by
      simp
    rw [hshape, lexTokens_cons (next_token_string h)]
    rfl
  | boolLit b sp =>
    rw [renderLit, litTokens]
    cases b with
    | true =>
      rw [lexTokens_kw_word h (by decide) hd1, identToken_upper_true h.2]
      rfl
    | false =>
      rw [lexTokens_kw_word h (by decide) hd1, identToken_upper_false h.2]
      rfl
  | nullLit sp =>
    rw [renderLit, litTokens]
    rw [lexTokens_kw_word h (by decide) hd1, identToken_upper_null h.2]
    rfl
  | dateLit sp s =>
    rw [renderLit, litTokens]
    have hshape : (sp ++ ' ' :: '\'' :: (s ++ ['\''])) ++ d :: rest =
        sp ++ ' ' :: ('\'' :: (s ++ '\'' :: (d :: rest))) := by
      simp
    rw [hshape, lexTokens_kw_word h.1 (by decide) (by decide),
      identToken_upper_kw h.1.2 (by tauto), lexTokens_ws,
      lexTokens_cons (next_token_string h.2)]
    rfl
  | timeLit sp s =>
    rw [renderLit, litTokens]
    have hshape : (sp ++ ' ' :: '\'' :: (s ++ ['\''])) ++ d :: rest =
        sp ++ ' ' :: ('\'' :: (s ++ '\'' :: (d :: rest))) := by
      simp
    rw [hshape, lexTokens_kw_word h.1 (by decide) (by decide),
      identToken_upper_kw h.1.2 (by tauto), lexTokens_ws,
      lexTokens_cons (next_token_string h.2)]
    rfl
  | timestampLit sp s =>
    rw [renderLit, litTokens]
    have hshape : (sp ++ ' ' :: '\'' :: (s ++ ['\''])) ++ d :: rest =
        sp ++ ' ' :: ('\'' :: (s ++ '\'' :: (d :: rest))) := by
      simp
    rw [hshape, lexTokens_kw_word h.1 (by decide) (by decide),
      identToken_upper_kw h.1.2 (by tauto), lexTokens_ws,
      lexTokens_cons (next_token_string h.2)]
    rfl
  | intervalLit sp s =>
    rw [renderLit, litTokens]
    have hshape : (sp ++ ' ' :: '\'' :: (s ++ ['\''])) ++ d :: rest =
        sp ++ ' ' :: ('\'' :: (s ++ '\'' :: (d :: rest))) := by
      simp
    rw [hshape, lexTokens_kw_word h.1 (by decide) (by decide),
      identToken_upper_kw h.1.2 (by tauto), lexTokens_ws,
      lexTokens_cons (next_token_string h.2)]
    rfl

lemma lexTokens_renderCols :
    ∀ (cols : List (List Char)), cols ≠ [] → (∀ c ∈ cols, identOk c) →
    ∀ rest : List Char,
      lexTokens (renderCols cols ++ ')' :: rest) =
        colTokens cols ++ lexTokens (')' :: rest) := by
  intro cols
  induction cols with
  | nil => intro h; exact absurd rfl h
  | cons c cs ih =>
    intro _ hok rest
    cases cs with
    | nil =>
      rw [renderCols, colTokens]
      rw [lexTokens_ident_word (hok c (by simp)) (by decide)]
      rfl
    | cons c2 cs2 =>
      rw [renderCols, colTokens]
      have hshape : (c ++ ',' :: renderCols (c2 :: cs2)) ++ ')' :: rest =
          c ++ ',' :: (renderCols (c2 :: cs2) ++ ')' :: rest) := by
        simp
      rw [hshape, lexTokens_ident_word (hok c (by simp)) (by decide),
        lexTokens_cons (next_token_comma _),
        ih (List.cons_ne_nil _ _) (fun x hx => hok x (List.mem_cons_of_mem _ hx)) rest]
      rfl

lemma lexTokens_renderLits :
    ∀ (ls : List LitSpec), ls ≠ [] → (∀ l ∈ ls, litOk l) →
    ∀ rest : List Char,
      lexTokens (renderLits ls ++ ')' :: rest) =
        litsTokens ls ++ lexTokens (')' :: rest) := by
  intro ls
  induction ls with
  | nil => intro h; exact absurd rfl h
  | cons l ls2 ih =>
    intro _ hok rest
    cases ls2 with
    | nil =>
      rw [renderLits, litsTokens]
      rw [lexTokens_renderLit (hok l (by simp)) (by decide) (by decide)]
    | cons l2 ls3 =>
      rw [renderLits, litsTokens]
      have hshape : (renderLit l ++ ',' :: renderLits (l2 :: ls3)) ++ ')' :: rest =
          renderLit l ++ ',' :: (renderLits (l2 :: ls3) ++ ')' :: rest) := by
        simp
      rw [hshape, lexTokens_renderLit (hok l (by simp)) (by decide) (by decide),
        lexTokens_cons (next_token_comma _),
        ih (List.cons_ne_nil _ _) (fun x hx => hok x (List.mem_cons_of_mem _ hx)) rest]
      simp

lemma lexTokens_renderStmt (st : StmtSpec) (h : stmtOk st) :
    lexTokens (renderStmt st) =
      Token.Keyword ("INSERT".toList) :: Token.Keyword ("INTO".toList) ::
      Token.Identifier st.table :: Token.LeftParen ::
      (colTokens st.cols ++ Token.RightParen :: Token.Keyword ("VALUES".toList) ::
        Token.LeftParen :: (litsTokens st.lits ++ Token.RightParen ::
          (if st.semi then [Token.SemiColon] else []))) := by
  obtain ⟨hins, hinto, hvals, htab, hcne, hcols, hlne, hlits⟩ := h
  rw [renderStmt]
  rw [lexTokens_kw_word hins (by decide) (by decide),
    identToken_upper_kw hins.2 (by tauto), lexTokens_ws,
    lexTokens_kw_word hinto (by decide) (by decide),
    identToken_upper_kw hinto.2 (by tauto), lexTokens_ws,
    lexTokens_ident_word htab (by decide), lexTokens_ws,
    lexTokens_cons (next_token_left_paren _),
    lexTokens_renderCols st.cols hcne hcols _,
    lexTokens_cons (next_token_right_paren _), lexTokens_ws,
    lexTokens_kw_word hvals (by decide) (by decide),
    identToken_upper_kw hvals.2 (by tauto), lexTokens_ws,
    lexTokens_cons (next_token_left_paren _),
    lexTokens_renderLits st.lits hlne hlits _,
    lexTokens_cons (next_token_right_paren _)]
  cases st.semi with
  | true => rfl
  | false => rfl

/-! ### Parsing the token streams of rendered statements -/

lemma parse_columns_colTokens {cols : List (List Char)} (hcne : cols ≠ []) :
    ∀ rest : List Token,
      parse_columns (colTokens cols ++ Token.RightParen :: rest) =
        Except.ok (cols, Token.RightParen :: rest) := by
  induction cols with
  | nil => exact absurd rfl hcne
  | cons c cs ih =>
    intro rest
    cases cs with
    | nil => rfl
    | cons c2 cs2 =>
      rw [colTokens]
      show parse_columns (Token.Identifier c :: Token.Comma ::
        (colTokens (c2 :: cs2) ++ Token.RightParen :: rest)) = _
      rw [parse_columns]
      rw [ih (List.cons_ne_nil _ _) rest]

lemma parse_values_step (l : LitSpec) (acc : List Value) (rest : List Token) :
    parse_values_loop true acc (litTokens l ++ rest) =
      parse_values_loop false (decodeLit l :: acc) rest := by
  cases l with
  | int ds => rfl
  | flt ip fp => rfl
  | txt s => rfl
  | boolLit b sp => rfl
  | nullLit sp => rfl
  | dateLit sp s =>
    show parse_values_loop true acc
      (Token.Keyword ("DATE".toList) :: Token.StringLiteral s :: rest) = _
    rw [parse_values_loop, if_pos (by decide : eqIgnoreAsciiCase ("DATE".toList)
      ("DATE".toList) = true)]
    rfl
  | timeLit sp s =>
    show parse_values_loop true acc
      (Token.Keyword ("TIME".toList) :: Token.StringLiteral s :: rest) = _
    rw [parse_values_loop, if_neg (by decide : ¬ eqIgnoreAsciiCase ("TIME".toList)
      ("DATE".toList) = true), if_pos (by decide : eqIgnoreAsciiCase ("TIME".toList)
      ("TIME".toList) = true)]
    rfl
  | timestampLit sp s =>
    show parse_values_loop true acc
      (Token.Keyword ("TIMESTAMP".toList) :: Token.StringLiteral s :: rest) = _
    rw [parse_values_loop,
      if_neg (by decide : ¬ eqIgnoreAsciiCase ("TIMESTAMP".toList) ("DATE".toList) = true),
      if_neg (by decide : ¬ eqIgnoreAsciiCase ("TIMESTAMP".toList) ("TIME".toList) = true),
      if_pos (by decide : eqIgnoreAsciiCase ("TIMESTAMP".toList) ("TIMESTAMP".toList) = true)]
    rfl
  | intervalLit sp s =>
    show parse_values_loop true acc
      (Token.Keyword ("INTERVAL".toList) :: Token.StringLiteral s :: rest) = _
    rw [parse_values_loop,
      if_neg (by decide : ¬ eqIgnoreAsciiCase ("INTERVAL".toList) ("DATE".toList) = true),
      if_neg (by decide : ¬ eqIgnoreAsciiCase ("INTERVAL".toList) ("TIME".toList) = true),
      if_neg (by decide : ¬ eqIgnoreAsciiCase ("INTERVAL".toList) ("TIMESTAMP".toList) = true),
      if_pos (by decide : eqIgnoreAsciiCase ("INTERVAL".toList) ("INTERVAL".toList) = true)]
    rfl

lemma parse_values_loop_litsTokens {ls : List LitSpec} (hlne : ls ≠ []) :
    ∀ (acc : List Value) (rest : List Token),
      parse_values_loop true acc (litsTokens ls ++ Token.RightParen :: rest) =
        Except.ok (acc.reverse ++ ls.map decodeLit, Token.RightParen :: rest) := by
  induction ls with
  | nil => exact absurd rfl hlne
  | cons l ls2 ih =>
    intro acc rest
    cases ls2 with
    | nil =>
      rw [litsTokens, parse_values_step l acc (Token.RightParen :: rest)]
      show Except.ok ((decodeLit l :: acc).reverse, Token.RightParen :: rest) = _
      simp
    | cons l2 ls3 =>
      rw [litsTokens]
      have hshape : (litTokens l ++ Token.Comma :: litsTokens (l2 :: ls3)) ++
          Token.RightParen :: rest =
          litTokens l ++ Token.Comma ::
            (litsTokens (l2 :: ls3) ++ Token.RightParen :: rest) := by
        simp
      rw [hshape, parse_values_step l acc _]
      show parse_values_loop true (decodeLit l :: acc)
        (litsTokens (l2 :: ls3) ++ Token.RightParen :: rest) = _
      rw [ih (List.cons_ne_nil _ _) (decodeLit l :: acc) rest]
      simp

lemma match_keyword_self (kw : List Char) (h : eqIgnoreAsciiCase kw kw = true)
    (rest : List Token) :
    match_keyword kw (Token.Keyword kw :: rest) = some rest := by
  rw [match_keyword, if_pos h]

lemma match_token_cons_self (t : Token) (rest : List Token) :
    match_token t (t :: rest) = some rest := by
  rw [match_token, if_pos rfl]

lemma parse_insert_shape (tbl : List Char) (cols : List (List Char)) (ls : List LitSpec)
    (tail : List Token) (hcne : cols ≠ []) (hlne : ls ≠ [])
    (htail : tail = [Token.SemiColon] ∨ tail = []) :
    parse_insert (Token.Keyword ("INSERT".toList) :: Token.Keyword ("INTO".toList) ::
      Token.Identifier tbl :: Token.LeftParen :: (colTokens cols ++ Token.RightParen ::
      Token.Keyword ("VALUES".toList) :: Token.LeftParen :: (litsTokens ls ++
      Token.RightParen :: tail))) =
      Except.ok (Query.Insert ⟨tbl, cols, ls.map decodeLit⟩, []) := by
  rw [parse_insert]
  simp only [match_keyword_self ("INSERT".toList) (by decide),
    match_keyword_self ("INTO".toList) (by decide),
    match_keyword_self ("VALUES".toList) (by decide), match_token_cons_self,
    parse_columns_colTokens hcne, parse_values_loop_litsTokens hlne,
    List.reverse_nil, List.nil_append]
  rcases htail with rfl | rfl <;> rfl

lemma parse_renderStmt (st : StmtSpec) (h : stmtOk st) :
    parseInputRest (renderStmt st) = Except.ok (Query.Insert (stmtInsert st), []) := by
  rw [parseInputRest, lexTokens_renderStmt st h]
  rw [parse]
  rw [if_pos (by decide : eqIgnoreAsciiCase ("INSERT".toList) ("INSERT".toList) = true)]
  obtain ⟨_, _, _, _, hcne, _, hlne, _⟩ := h
  exact parse_insert_shape st.table st.cols st.lits _ hcne hlne
    (by cases st.semi <;> simp)

/-! ### The lexer produces no whitespace tokens -/

lemma numToken_not_ws (x : List Char) (w : List Char) :
    numToken x ≠ Token.Whitespace w := by
  rw [numToken]
  split_ifs
  · cases parse_f64 x <;> simp
  · cases parse_i64 x <;> simp

lemma identToken_not_ws (x : List Char) (w : List Char) :
    identToken x ≠ Token.Whitespace w := by
  rw [identToken]
  split_ifs <;> simp

lemma next_token_not_ws (s : List Char) (w : List Char) :
    (next_token s).1 ≠ some (Token.Whitespace w) := by
  unfold next_token
  rcases hsw : skip_whitespace s with _ | ⟨c, rest⟩
  · simp [scan_token]
  · simp only [scan_token]
    split_ifs <;>
      simp [read_string_literal, read_number, read_identifier_or_keyword,
        numToken_not_ws, identToken_not_ws]

lemma lexTokensF_not_ws :
    ∀ (fuel : Nat) (s : List Char) (t : Token), t ∈ lexTokensF fuel s →
      ∀ w, t ≠ Token.Whitespace w := by
  intro fuel
  induction fuel with
  | zero => intro s t ht; cases ht
  | succ n ih =>
    intro s t ht w
    rw [lexTokensF] at ht
    rcases hnt : next_token s with ⟨ot, r⟩
    rw [hnt] at ht
    cases ot with
    | none => cases ht
    | some t0 =>
      rcases List.mem_cons.mp ht with rfl | ht
      · intro hw
        subst hw
        exact absurd (congrArg Prod.fst hnt) (by simpa using next_token_not_ws s w)
      · exact ih r t ht w

lemma lexTokens_not_ws {s : List Char} {t : Token} (ht : t ∈ lexTokens s) :
    ∀ w, t ≠ Token.Whitespace w :=
  lexTokensF_not_ws _ s t ht

/-! ### Error messages of the parsing loops -/

lemma parse_columns_error_name :
    ∀ (toks : List Token) (e : String), parse_columns toks = Except.error e →
      e = "Expected column name." := by
  intro toks
  induction toks using parse_columns.induct
  all_goals (intro e h; simp_all [parse_columns])

lemma date_toList : "DATE".toList = ['D', 'A', 'T', 'E'] := rfl

lemma time_toList : "TIME".toList = ['T', 'I', 'M', 'E'] := rfl

lemma timestamp_toList :
    "TIMESTAMP".toList = ['T', 'I', 'M', 'E', 'S', 'T', 'A', 'M', 'P'] := rfl

lemma interval_toList : "INTERVAL".toList = ['I', 'N', 'T', 'E', 'R', 'V', 'A', 'L'] := rfl

lemma parse_values_loop_error :
    ∀ (ph : Bool) (acc : List Value) (toks : List Token) (e : String),
      parse_values_loop ph acc toks = Except.error e →
      e = "Failed to parse value." ∨ e = "Failed to parse 'DATE' literal." ∨
      e = "Failed to parse 'TIME' literal." ∨
      e = "Failed to parse 'TIMESTAMP' literal." ∨
      e = "Failed to parse 'INTERVAL' literal." := by
  intro ph acc toks
  induction ph, acc, toks using parse_values_loop.induct
  all_goals intro e h
  all_goals try simp_all [parse_values_loop, date_toList, time_toList, timestamp_toList,
    interval_toList]
  all_goals rw [parse_values_loop.eq_def] at h
  all_goals simp_all [date_toList, time_toList, timestamp_toList, interval_toList]

lemma parse_insert_no_insert_error (toks t1 : List Token)
    (h : match_keyword ("INSERT".toList) toks = some t1) :
    parse_insert toks ≠ Except.error "Expected 'INSERT' keyword." := by
  intro hc
  rw [parse_insert, h] at hc
  try simp only [] at hc
  rcases h2 : match_keyword ("INTO".toList) t1 with _ | t2
  · rw [h2] at hc
    simp at hc
  · rw [h2] at hc
    simp only [] at hc
    rcases t2 with _ | ⟨tk, t3⟩
    · simp at hc
    · cases tk
      all_goals try ((try simp only [] at hc); simp at hc; done)
      case Identifier name =>
      try simp only [] at hc
      rcases h4 : match_token Token.LeftParen t3 with _ | t4
      · rw [h4] at hc
        simp at hc
      · rw [h4] at hc
        simp only [] at hc
        rcases h5 : parse_columns t4 with e | ⟨cols, t5⟩
        · rw [h5] at hc
          simp only [] at hc
          exact absurd ((Except.error.inj hc).symm.trans (parse_columns_error_name _ _ h5))
            (by decide)
        · rw [h5] at hc
          simp only [] at hc
          rcases h6 : match_token Token.RightParen t5 with _ | t6
          · rw [h6] at hc
            simp at hc
          · rw [h6] at hc
            simp only [] at hc
            rcases h7 : match_keyword ("VALUES".toList) t6 with _ | t7
            · rw [h7] at hc
              simp at hc
            · rw [h7] at hc
              simp only [] at hc
              rcases h8 : match_token Token.LeftParen t7 with _ | t8
              · rw [h8] at hc
                simp at hc
              · rw [h8] at hc
                simp only [] at hc
                rcases h9 : parse_values_loop true [] t8 with e | ⟨vals, t9⟩
                · rw [h9] at hc
                  simp only [] at hc
                  rcases parse_values_loop_error _ _ _ _ h9 with he | he | he | he | he <;>
                    exact absurd ((Except.error.inj hc).symm.trans he) (by decide)
                · rw [h9] at hc
                  simp only [] at hc
                  rcases h10 : match_token Token.RightParen t9 with _ | t10
                  · rw [h10] at hc
                    simp at hc
                  · rw [h10] at hc
                    simp at hc

lemma parse_no_insert_error (toks : List Token) :
    parse toks ≠ Except.error "Expected 'INSERT' keyword." := by
  intro hc
  rcases toks with _ | ⟨tk, rest⟩
  case nil =>
    rw [parse.eq_def] at hc
    simp at hc
  case cons =>
    cases tk
    case Keyword kw =>
      rw [parse.eq_def] at hc
      simp only [] at hc
      by_cases hkw : eqIgnoreAsciiCase kw ("INSERT".toList) = true
      · rw [if_pos hkw] at hc
        exact parse_insert_no_insert_error (Token.Keyword kw :: rest) rest
          (by rw [match_keyword, if_pos hkw]) hc
      · rw [if_neg hkw] at hc
        simp at hc
    all_goals rw [parse.eq_def] at hc
    all_goals simp at hc

/-! ### Remaining support lemmas -/

lemma next_token_digit {c : Char} {cs : List Char} (hc : c.isDigit = true) :
    next_token (c :: cs) = (some (read_number (c :: cs)).1, (read_number (c :: cs)).2) := by
  have e1 : (c == '(') = false := ne_of_classes _ hc (by decide)
  have e2 : (c == ')') = false := ne_of_classes _ hc (by decide)
  have e3 : (c == ',') = false := ne_of_classes _ hc (by decide)
  have e4 : (c == ';') = false := ne_of_classes _ hc (by decide)
  have e5 : (c == '\'') = false := ne_of_classes _ hc (by decide)
  have h1 : skip_whitespace (c :: cs) = c :: cs := skip_whitespace_not_ws (digit_not_ws hc)
  simp only [next_token, scan_token, h1, e1, e2, e3, e4, e5, hc, Bool.false_eq_true,
    if_false, if_true]

lemma identToken_keyword_not_identifier {w : List Char} (hk : is_keyword w = true) :
    ∀ s, identToken w ≠ Token.Identifier s := by
  intro s
  rw [identToken, if_pos hk]
  split_ifs <;> simp

lemma parse_insert_dispatch (rest : List Token) :
    parse (Token.Keyword ("INSERT".toList) :: rest) =
      parse_insert (Token.Keyword ("INSERT".toList) :: rest) := by
  rw [parse, if_pos (by decide : eqIgnoreAsciiCase ("INSERT".toList) ("INSERT".toList) = true)]

lemma parse_insert_table_error {T : Token} (hT : ∀ s, T ≠ Token.Identifier s)
    (rest : List Token) :
    parse_insert (Token.Keyword ("INSERT".toList) :: Token.Keyword ("INTO".toList) ::
      T :: rest) = Except.error "Expected table name." := by
  rw [parse_insert]
  simp only [match_keyword_self ("INSERT".toList) (by decide),
    match_keyword_self ("INTO".toList) (by decide)]
  cases T
  case Identifier s => exact absurd rfl (hT s)
  all_goals rfl

lemma parse_columns_not_identifier {T : Token} (hT : ∀ s, T ≠ Token.Identifier s)
    (rest : List Token) :
    parse_columns (T :: rest) = Except.error "Expected column name." := by
  cases T
  case Identifier s => exact absurd rfl (hT s)
  all_goals rfl

lemma parse_insert_column_error {T : Token} (hT : ∀ s, T ≠ Token.Identifier s)
    (tbl : List Char) (rest : List Token) :
    parse_insert (Token.Keyword ("INSERT".toList) :: Token.Keyword ("INTO".toList) ::
      Token.Identifier tbl :: Token.LeftParen :: T :: rest) =
      Except.error "Expected column name." := by
  rw [parse_insert]
  simp only [match_keyword_self ("INSERT".toList) (by decide),
    match_keyword_self ("INTO".toList) (by decide), match_token_cons_self,
    parse_columns_not_identifier hT]

lemma parseInput_error {input : List Char} {e : String}
    (h : parseInputRest input = Except.error e) : parseInput input = Except.error e := by
  rw [parseInput, h]

lemma identToken_congr_upper {w1 w2 : List Char} (hu : upperChars w1 = upperChars w2)
    (hk : is_keyword w1 = true) : identToken w1 = identToken w2 := by
  have hk2 : is_keyword w2 = true := by
    unfold is_keyword at hk ⊢
    rw [← hu]
    exact hk
  rw [identToken, identToken, if_pos hk, if_pos hk2, hu]

/-! ## The claims -/

/-- C1: for every valid input of the form
`INSERT INTO t (c1,...,cn) VALUES (v1,...,vn)` with an optional trailing
`;`, `Parser::parse` returns `Ok(Query::Insert)` whose table is `t`, whose
columns are `[c1..cn]` in source order and whose values are the decoded
literals in source order; the presence or absence of the trailing `;`
yields the identical `Insert` value. -/
theorem claim1_insert_roundtrip (st : StmtSpec) (h : stmtOk st) :
    parseInput (renderStmt st) = Except.ok (Query.Insert (stmtInsert st)) ∧
    parseInput (renderStmt { st with semi := true }) =
      parseInput (renderStmt { st with semi := false }) := by
  have hb : ∀ b : Bool, stmtOk { st with semi := b } := fun _ => h
  refine ⟨?_, ?_⟩
  · simp only [parseInput, parse_renderStmt st h]
  · simp only [parseInput, parse_renderStmt _ (hb true), parse_renderStmt _ (hb false)]
    rfl

/-- Witness for C1 at a concrete statement with two columns and two values. -/
theorem claim1_insert_roundtrip_witness :
    parseInput (renderStmt ⟨"INSERT".toList, "INTO".toList, "VALUES".toList,
        "tbl".toList, ["c1".toList, "c2".toList],
        [LitSpec.int ("42".toList), LitSpec.txt ("hi".toList)], true⟩) =
      Except.ok (Query.Insert (stmtInsert ⟨"INSERT".toList, "INTO".toList,
        "VALUES".toList, "tbl".toList, ["c1".toList, "c2".toList],
        [LitSpec.int ("42".toList), LitSpec.txt ("hi".toList)], true⟩)) :=
  (claim1_insert_roundtrip _ (by decide)).1

/-- C2, counterexample: it is not true that every `Ok` result consumes the
entire remaining token stream; `INSERT INTO t (a) VALUES (1) x` returns `Ok`
with the token `x` still producible. -/
theorem claim2_counterexample :
    ¬ (∀ (input : List Char) (q : Query) (rest : List Token),
        parseInputRest input = Except.ok (q, rest) → rest = []) := by
  intro hall
  have h := hall ("INSERT INTO t (a) VALUES (1) x".toList)
    (Query.Insert ⟨"t".toList, ["a".toList], [Value.Integer 1]⟩)
    [Token.Identifier ("x".toList)] (by decide)
  exact absurd h (by decide)

/-- C2, amended: when the input is exactly one INSERT statement (with its
optional `;`), `parse` does consume the entire token stream; but `parse`
performs no end-of-input check, so an input with extra tokens after the
statement still returns `Ok` and leaves those tokens unconsumed. -/
theorem claim2_amended (st : StmtSpec) (h : stmtOk st) :
    parseInputRest (renderStmt st) = Except.ok (Query.Insert (stmtInsert st), []) ∧
    parseInputRest ("INSERT INTO t (a) VALUES (1) x".toList) =
      Except.ok (Query.Insert ⟨"t".toList, ["a".toList], [Value.Integer 1]⟩,
        [Token.Identifier ("x".toList)]) :=
  ⟨parse_renderStmt st h, by decide⟩

/-- Witness for the amended C2. -/
theorem claim2_amended_witness :
    parseInputRest (renderStmt ⟨"INSERT".toList, "INTO".toList, "VALUES".toList,
        "t".toList, ["a".toList], [LitSpec.int ("1".toList)], false⟩) =
      Except.ok (Query.Insert (stmtInsert ⟨"INSERT".toList, "INTO".toList,
        "VALUES".toList, "t".toList, ["a".toList],
        [LitSpec.int ("1".toList)], false⟩), []) ∧
    parseInputRest ("INSERT INTO t (a) VALUES (1) x".toList) =
      Except.ok (Query.Insert ⟨"t".toList, ["a".toList], [Value.Integer 1]⟩,
        [Token.Identifier ("x".toList)]) :=
  claim2_amended _ (by decide)

/-- C3: column and value counts are never cross-checked:
`INSERT INTO t (a,b) VALUES (1);` parses to `columns = [a, b]`,
`values = [Integer 1]`, and any well-formed statement with differing column
and value counts parses successfully. -/
theorem claim3_no_count_check (st : StmtSpec) (h : stmtOk st)
    (hcount : st.cols.length ≠ st.lits.length) :
    parseInput ("INSERT INTO t (a,b) VALUES (1);".toList) =
      Except.ok (Query.Insert ⟨"t".toList, ["a".toList, "b".toList],
        [Value.Integer 1]⟩) ∧
    parseInput (renderStmt st) = Except.ok (Query.Insert (stmtInsert st)) := by
  refine ⟨by decide, ?_⟩
  simp only [parseInput, parse_renderStmt st h]

/-- Witness for C3: two columns, one value. -/
theorem claim3_no_count_check_witness :
    parseInput ("INSERT INTO t (a,b) VALUES (1);".toList) =
      Except.ok (Query.Insert ⟨"t".toList, ["a".toList, "b".toList],
        [Value.Integer 1]⟩) ∧
    parseInput (renderStmt ⟨"INSERT".toList, "INTO".toList, "VALUES".toList,
        "t".toList, ["a".toList, "b".toList], [LitSpec.int ("1".toList)], true⟩) =
      Except.ok (Query.Insert (stmtInsert ⟨"INSERT".toList, "INTO".toList,
        "VALUES".toList, "t".toList, ["a".toList, "b".toList],
        [LitSpec.int ("1".toList)], true⟩)) :=
  claim3_no_count_check _ (by decide) (by decide)

/-- C4: keyword matching is case-insensitive while identifier case is
preserved: any two spellings of a keyword with the same uppercasing lex to
the identical token (so replacing a keyword by a different-cased spelling
cannot change any parse result), two statements differing only in the
casing of their keywords parse to the same result, and in particular
`insert into T (x) values (1)` parses to the same `Insert` as the
upper-case form, with table `T` and column `x` keeping their original
casing. -/
theorem claim4_case_insensitive_keywords (st1 st2 : StmtSpec) (h1 : stmtOk st1)
    (h2 : stmtOk st2) (ht : st1.table = st2.table) (hcs : st1.cols = st2.cols)
    (hvs : st1.lits.map decodeLit = st2.lits.map decodeLit) :
    (∀ w1 w2 : List Char, upperChars w1 = upperChars w2 → is_keyword w1 = true →
      identToken w1 = identToken w2) ∧
    parseInput (renderStmt st1) = parseInput (renderStmt st2) ∧
    parseInput ("insert into T (x) values (1)".toList) =
      parseInput ("INSERT INTO T (x) VALUES (1)".toList) ∧
    parseInput ("insert into T (x) values (1)".toList) =
      Except.ok (Query.Insert ⟨"T".toList, ["x".toList], [Value.Integer 1]⟩) := by
  refine ⟨fun w1 w2 hu hk => identToken_congr_upper hu hk, ?_, by decide, by decide⟩
  have hi : stmtInsert st1 = stmtInsert st2 := by
    rw [stmtInsert, stmtInsert, ht, hcs, hvs]
  simp only [parseInput, parse_renderStmt st1 h1, parse_renderStmt st2 h2, hi]

/-- Witness for C4: the same statement spelled lower-case and upper-case. -/
theorem claim4_case_insensitive_keywords_witness :
    (∀ w1 w2 : List Char, upperChars w1 = upperChars w2 → is_keyword w1 = true →
      identToken w1 = identToken w2) ∧
    parseInput (renderStmt ⟨"insert".toList, "into".toList, "values".toList,
        "T".toList, ["x".toList], [LitSpec.boolLit true ("true".toList)], false⟩) =
      parseInput (renderStmt ⟨"INSERT".toList, "INTO".toList, "VALUES".toList,
        "T".toList, ["x".toList], [LitSpec.boolLit true ("TRUE".toList)], false⟩) ∧
    parseInput ("insert into T (x) values (1)".toList) =
      parseInput ("INSERT INTO T (x) VALUES (1)".toList) ∧
    parseInput ("insert into T (x) values (1)".toList) =
      Except.ok (Query.Insert ⟨"T".toList, ["x".toList], [Value.Integer 1]⟩) :=
  claim4_case_insensitive_keywords _ _ (by decide) (by decide) (by decide) (by decide)
    (by decide)

/-- C5: a maximal digit/dot run scanned at a numeric-literal position that
fails to parse degrades silently: a run with a dot that fails `f64` parsing
lexes to `Float 0.0`, and a dot-free run that fails `i64` parsing (e.g. by
overflow) lexes to `Integer 0`; no error is signaled. -/
theorem claim5_numeric_fallback (c : Char) (cs : List Char) (hc : c.isDigit = true) :
    (((c :: cs).takeWhile fun x => x.isDigit || x == '.').contains '.' = true →
      parse_f64 ((c :: cs).takeWhile fun x => x.isDigit || x == '.') = none →
      (next_token (c :: cs)).1 = some (Token.Float 0)) ∧
    (((c :: cs).takeWhile fun x => x.isDigit || x == '.').contains '.' = false →
      parse_i64 ((c :: cs).takeWhile fun x => x.isDigit || x == '.') = none →
      (next_token (c :: cs)).1 = some (Token.Integer 0)) := by
  rw [next_token_digit hc]
  constructor
  · intro h1 h2
    simp only [read_number, numToken, h1, h2, if_true]
  · intro h1 h2
    simp only [read_number, numToken, h1, h2, Bool.false_eq_true, if_false]

/-- Witness for C5: `1.2.3` lexes to `Float 0`, and `9223372036854775808`
(that is `i64::MAX + 1`) lexes to `Integer 0`. -/
theorem claim5_numeric_fallback_witness :
    (next_token ("1.2.3".toList)).1 = some (Token.Float 0) ∧
    (next_token ("9223372036854775808".toList)).1 = some (Token.Integer 0) :=
  ⟨(claim5_numeric_fallback '1' (".2.3".toList) (by decide)).1 (by decide) (by decide),
   (claim5_numeric_fallback '9' ("223372036854775808".toList) (by decide)).2
     (by decide) (by decide)⟩

/-- C6: a string literal opened by `'` that reaches end of input without a
closing quote is returned as `Some(StringLiteral s)` where `s` is exactly
everything after the opening quote; no error, no dropped characters. -/
theorem claim6_unterminated_string (s : List Char) (h : '\'' ∉ s) :
    next_token ('\'' :: s) = (some (Token.StringLiteral s), []) :=
  next_token_unterminated h

/-- Witness for C6 on the unterminated literal `'abc`. -/
theorem claim6_unterminated_string_witness :
    next_token ('\'' :: "abc".toList) = (some (Token.StringLiteral ("abc".toList)), []) :=
  claim6_unterminated_string _ (by decide)

/-- C7: a trailing comma before the closing `)` is rejected at the
expected-next-element step: `INSERT INTO t (a,) VALUES (1)` fails with
`Expected column name.` and no AST is produced. -/
theorem claim7_trailing_comma :
    parseInput ("INSERT INTO t (a,) VALUES (1)".toList) =
      Except.error "Expected column name." := by
  decide

/-- C8: `parse` delegates to `parse_insert` only when the current token is
the (case-insensitive) keyword INSERT, so the branch returning
`Expected 'INSERT' keyword.` is unreachable through `parse` on every
input. -/
theorem claim8_insert_error_unreachable (input : List Char) :
    parseInput input ≠ Except.error "Expected 'INSERT' keyword." := by
  intro hc
  rw [parseInput] at hc
  rcases hp : parseInputRest input with e | ⟨q, rest⟩
  · rw [hp] at hc
    try simp only [] at hc
    have he : e = "Expected 'INSERT' keyword." := Except.error.inj hc
    rw [he] at hp
    exact parse_no_insert_error (lexTokens input) hp
  · rw [hp] at hc
    try simp only [] at hc
    cases hc

/-- Witness for C8 at a concrete input. -/
theorem claim8_insert_error_unreachable_witness :
    parseInput ("INSERT".toList) ≠ Except.error "Expected 'INSERT' keyword." :=
  claim8_insert_error_unreachable _

/-- C9: `next_token` never returns a `Whitespace` token, and consequently
`consume_whitespace_and_comments` never advances the lookahead: it is the
identity on every token stream the lexer can produce. -/
theorem claim9_no_whitespace_tokens :
    (∀ (s : List Char) (w : List Char),
      (next_token s).1 ≠ some (Token.Whitespace w)) ∧
    (∀ s : List Char,
      consume_whitespace_and_comments (lexTokens s) = lexTokens s) := by
  refine ⟨next_token_not_ws, ?_⟩
  intro s
  apply dropWhile_eq_self_of_none
  intro t ht
  have hnw := lexTokens_not_ws ht
  cases t
  case Whitespace w => exact absurd rfl (hnw w)
  all_goals rfl

/-- Witness for C9 on a whitespace-heavy input. -/
theorem claim9_no_whitespace_tokens_witness :
    consume_whitespace_and_comments (lexTokens ("  1 , 2 ".toList)) =
      lexTokens ("  1 , 2 ".toList) :=
  claim9_no_whitespace_tokens.2 _

/-- C10: a reserved keyword cannot serve as a table or column name: for any
spelling `w` of a keyword (any letter case), the lexer produces a
non-Identifier token for `w`, and `parse` fails with `Expected table name.`
when `w` stands at the table position and `Expected column name.` when it
stands at a column position. -/
theorem claim10_keyword_not_name (w : List Char) (hk : is_keyword w = true)
    (hw : ∀ c ∈ w, is_identifier_part c = true) (hh : headIsIdentStart w = true) :
    (∀ s, identToken w ≠ Token.Identifier s) ∧
    parseInput ("INSERT INTO ".toList ++ (w ++ " (a) VALUES (1)".toList)) =
      Except.error "Expected table name." ∧
    parseInput ("INSERT INTO t (".toList ++ (w ++ ") VALUES (1)".toList)) =
      Except.error "Expected column name." := by
  obtain ⟨c, cs, rfl⟩ : ∃ c cs, w = c :: cs := by
    cases w with
    | nil => cases hh
    | cons c cs => exact ⟨c, cs, rfl⟩
  have hnonid := identToken_keyword_not_identifier hk
  have hc0 : is_identifier_start c = true := hh
  have hcs : ∀ x ∈ cs, is_identifier_part x = true :=
    fun x hx => hw x (List.mem_cons_of_mem _ hx)
  refine ⟨hnonid, ?_, ?_⟩
  · have hinput : "INSERT INTO ".toList ++ ((c :: cs) ++ " (a) VALUES (1)".toList) =
        "INSERT".toList ++ ' ' :: ("INTO".toList ++ ' ' ::
          (c :: cs ++ ' ' :: "(a) VALUES (1)".toList)) := rfl
    rw [hinput]
    apply parseInput_error
    rw [parseInputRest,
      lexTokens_kw_word (⟨by decide, by decide⟩ : kwOk ("INSERT".toList) ("INSERT".toList))
        (by decide) (by decide),
      (by decide : identToken ("INSERT".toList) = Token.Keyword ("INSERT".toList)),
      lexTokens_ws,
      lexTokens_kw_word (⟨by decide, by decide⟩ : kwOk ("INTO".toList) ("INTO".toList))
        (by decide) (by decide),
      (by decide : identToken ("INTO".toList) = Token.Keyword ("INTO".toList)),
      lexTokens_ws,
      lexTokens_cons (next_token_word hc0 hcs (by decide)),
      parse_insert_dispatch, parse_insert_table_error hnonid]
  · have hinput : "INSERT INTO t (".toList ++ ((c :: cs) ++ ") VALUES (1)".toList) =
        "INSERT".toList ++ ' ' :: ("INTO".toList ++ ' ' ::
          ("t".toList ++ ' ' :: '(' :: (c :: cs ++ ')' :: " VALUES (1)".toList))) := rfl
    rw [hinput]
    apply parseInput_error
    rw [parseInputRest,
      lexTokens_kw_word (⟨by decide, by decide⟩ : kwOk ("INSERT".toList) ("INSERT".toList))
        (by decide) (by decide),
      (by decide : identToken ("INSERT".toList) = Token.Keyword ("INSERT".toList)),
      lexTokens_ws,
      lexTokens_kw_word (⟨by decide, by decide⟩ : kwOk ("INTO".toList) ("INTO".toList))
        (by decide) (by decide),
      (by decide : identToken ("INTO".toList) = Token.Keyword ("INTO".toList)),
      lexTokens_ws,
      lexTokens_ident_word (by decide : identOk ("t".toList)) (by decide),
      lexTokens_ws,
      lexTokens_cons (next_token_left_paren _),
      lexTokens_cons (next_token_word hc0 hcs (by decide)),
      parse_insert_dispatch, parse_insert_column_error hnonid]

/-- Witness for C10 with the keyword spelling `null`. -/
theorem claim10_keyword_not_name_witness :
    (∀ s, identToken ("null".toList) ≠ Token.Identifier s) ∧
    parseInput ("INSERT INTO ".toList ++ ("null".toList ++ " (a) VALUES (1)".toList)) =
      Except.error "Expected table name." ∧
    parseInput ("INSERT INTO t (".toList ++ ("null".toList ++ ") VALUES (1)".toList)) =
      Except.error "Expected column name." :=
  claim10_keyword_not_name _ (by decide) (by decide) (by decide)

end Rusqlite